/-
Verification development for the SLAM / motion-control core of a small
differential-drive robot (Rust sources under src/).

Floating-point (f64) arithmetic of the source is modelled over the real
numbers; machine-integer (u8/u16/u32/i32) arithmetic is modelled over
Nat / Int with explicit wrap-around (% 2^w) where the source can overflow.

Shallow embedding, by source file:
 * geometry.rs : Transform2d / Twist2d, composition (impl Add), inversion
   (impl Neg), the planar exponential map (impl From<Twist2d> for
   Transform2d) and log map (impl From<Transform2d> for Twist2d),
   interpolation (impl Interpolate for Transform2d).
 * utils.rs    : TimeInterpolatableBuffer::get_value and the f64
   Interpolate instance.
 * odometry.rs : DifferentialDriveOdometry::update / reset_pose.
 * pose_estimator.rs : PoseEstimator::sample_at.
 * icp.rs      : d_r and jacobian.
 * pose_graph.rs : PoseGraphBackend::add_node_with_odometry.
 * lidar.rs    : ScanPacket::from_buffer, varbitscale_decode.
-/

import Mathlib

open Real

/-- Real model of f64::hypot from the Rust standard library:
sqrt of the sum of squares. -/
noncomputable def hypot (x y : ℝ) : ℝ := Real.sqrt (x ^ 2 + y ^ 2)

/-- Real model of f64::atan2 from the Rust standard library (four-quadrant
arctangent, first argument is the y coordinate). -/
noncomputable def atan2 (y x : ℝ) : ℝ :=
  if 0 < x then Real.arctan (y / x)
  else if x < 0 then
    (if 0 ≤ y then Real.arctan (y / x) + π else Real.arctan (y / x) - π)
  else if 0 < y then π / 2
  else if y < 0 then -(π / 2)
  else 0

/-- Transform2d from geometry.rs: a 2d translation followed by a 2d
rotation, fields x_meters, y_meters, theta_radians. -/
structure Transform2d where
  x_meters : ℝ
  y_meters : ℝ
  theta_radians : ℝ

/-- Twist2d from geometry.rs: fields dx, dy, dtheta. -/
structure Twist2d where
  dx : ℝ
  dy : ℝ
  dtheta : ℝ

/-- Composition, from geometry.rs impl Add for Transform2d:
rotate the rhs translation by self's angle, add translations, add angles. -/
noncomputable def Transform2d.add (a rhs : Transform2d) : Transform2d :=
  ⟨a.x_meters + (rhs.x_meters * Real.cos a.theta_radians -
      rhs.y_meters * Real.sin a.theta_radians),
   a.y_meters + (rhs.x_meters * Real.sin a.theta_radians +
      rhs.y_meters * Real.cos a.theta_radians),
   a.theta_radians + rhs.theta_radians⟩

/-- Zero transform, Transform2d::ZERO from geometry.rs. -/
def Transform2d.ZERO : Transform2d := ⟨0, 0, 0⟩

/-- Inversion, from geometry.rs impl Neg for Transform2d:
Transform2d::new(0,0,-theta) + Transform2d::new(-x,-y,0). -/
noncomputable def Transform2d.neg (a : Transform2d) : Transform2d :=
  Transform2d.add ⟨0, 0, -a.theta_radians⟩ ⟨-a.x_meters, -a.y_meters, 0⟩

/-- Approximate equality with tolerance 1e-9, from geometry.rs
impl PartialEq for Transform2d. -/
def Transform2d.approxEq (a other : Transform2d) : Prop :=
  |a.x_meters - other.x_meters| < 1e-9 ∧
  |a.y_meters - other.y_meters| < 1e-9 ∧
  |a.theta_radians - other.theta_radians| < 1e-9

/-- Componentwise tolerance-1e-9 equality of twists (the spec's notion of
approximate equality applied to Twist2d components). -/
def Twist2d.approxEq (a other : Twist2d) : Prop :=
  |a.dx - other.dx| < 1e-9 ∧ |a.dy - other.dy| < 1e-9 ∧
  |a.dtheta - other.dtheta| < 1e-9

/-- Scalar multiplication of a twist, from geometry.rs
impl Mul<f64> for Twist2d. -/
noncomputable def Twist2d.mul (a : Twist2d) (rhs : ℝ) : Twist2d :=
  ⟨a.dx * rhs, a.dy * rhs, a.dtheta * rhs⟩

/-- Planar exponential map, from geometry.rs
impl From<Twist2d> for Transform2d (the source computes s and c in a
single if on the same condition; the two ifs below share that condition). -/
noncomputable def transformOfTwist (twist : Twist2d) : Transform2d :=
  let s := if |twist.dtheta| < 1e-9
    then 1 - 1 / 6 * twist.dtheta * twist.dtheta
    else Real.sin twist.dtheta / twist.dtheta
  let c := if |twist.dtheta| < 1e-9
    then 0.5 * twist.dtheta
    else (1 - Real.cos twist.dtheta) / twist.dtheta
  ⟨twist.dx * s - twist.dy * c, twist.dx * c + twist.dy * s, twist.dtheta⟩

/-- Planar log map, from geometry.rs
impl From<Transform2d> for Twist2d. -/
noncomputable def twistOfTransform (tf : Transform2d) : Twist2d :=
  let dtheta := tf.theta_radians
  let half_dtheta := dtheta / 2
  let cos_minus_one := Real.cos dtheta - 1
  let half_theta_by_tan_of_half_dtheta :=
    if |cos_minus_one| < 1e-9
    then 1 - 1 / 12 * dtheta * dtheta
    else -(half_dtheta * Real.sin dtheta) / cos_minus_one
  let translation_part :=
    Transform2d.add ⟨0, 0, atan2 (-half_dtheta) half_theta_by_tan_of_half_dtheta⟩
      ⟨tf.x_meters, tf.y_meters, 0⟩
  let h := hypot half_theta_by_tan_of_half_dtheta half_dtheta
  ⟨translation_part.x_meters * h, translation_part.y_meters * h, dtheta⟩

/-- Interpolation of transforms, from geometry.rs
impl Interpolate for Transform2d: low + exp(t * log(-low + high)). -/
noncomputable def Transform2d.interpolate (low high : Transform2d) (t : ℝ) :
    Transform2d :=
  let low_to_high := Transform2d.add (Transform2d.neg low) high
  let twist := twistOfTransform low_to_high
  let t_times_twist := transformOfTwist (Twist2d.mul twist t)
  Transform2d.add low t_times_twist

/-- Interpolate for f64, from utils.rs: low + (high - low) * t. -/
noncomputable def f64_interpolate (low high t : ℝ) : ℝ := low + (high - low) * t

/-- Loop body of TimeInterpolatableBuffer::get_value from utils.rs.
Walks the remaining entries; on the first entry with key strictly greater
than the queried time it interpolates against the running lower bound.
When the loop exhausts the buffer the source returns the map's last entry,
which at that point is exactly the running lower bound. -/
noncomputable def get_value_loop {α : Type} (interp : α → α → ℝ → α) :
    (ℝ × α) → List (ℝ × α) → ℝ → α
  | lower, [], _ => lower.2
  | lower, next :: rest, time =>
    if time < next.1 then
      interp lower.2 next.2 ((time - lower.1) / (next.1 - lower.1))
    else get_value_loop interp next rest time

/-- TimeInterpolatableBuffer::get_value from utils.rs. The BTreeMap is
modelled as its sorted association list; the Interpolate trait dictionary
is the explicit argument interp. -/
noncomputable def get_value {α : Type} (interp : α → α → ℝ → α)
    (buffer : List (ℝ × α)) (time : ℝ) : Option α :=
  match buffer with
  | [] => none
  | lower_bound :: rest =>
    if lower_bound.1 > time then some lower_bound.2
    else some (get_value_loop interp lower_bound rest time)

/-- DifferentialDriveWheelPositions from odometry.rs. -/
structure DifferentialDriveWheelPositions where
  left_wheel_meters : ℝ
  right_wheel_meters : ℝ

/-- DifferentialDriveOdometry state from odometry.rs. -/
structure DifferentialDriveOdometry where
  pose : Transform2d
  wheel_separation_meters : ℝ
  gyro_offset_radians : ℝ
  prev_angle_radians : ℝ
  prev_wheel_positions : DifferentialDriveWheelPositions

/-- DifferentialDriveOdometry::update from odometry.rs. -/
noncomputable def DifferentialDriveOdometry.update
    (self : DifferentialDriveOdometry) (gyro_angle_radians : ℝ)
    (wheel_positions : DifferentialDriveWheelPositions) :
    DifferentialDriveOdometry :=
  let angle := gyro_angle_radians - self.gyro_offset_radians
  let l := wheel_positions.left_wheel_meters -
    self.prev_wheel_positions.left_wheel_meters
  let r := wheel_positions.right_wheel_meters -
    self.prev_wheel_positions.right_wheel_meters
  let twist : Twist2d := ⟨(l + r) / 2, 0, angle - self.prev_angle_radians⟩
  { self with
    pose := self.pose.add (transformOfTwist twist)
    prev_wheel_positions := wheel_positions
    prev_angle_radians := angle }

/-- DifferentialDriveOdometry::reset_pose from odometry.rs. -/
def DifferentialDriveOdometry.reset_pose
    (self : DifferentialDriveOdometry) (gyro_angle_radians : ℝ)
    (wheel_positions : DifferentialDriveWheelPositions)
    (pose : Transform2d) : DifferentialDriveOdometry :=
  { self with
    prev_angle_radians := pose.theta_radians
    prev_wheel_positions := wheel_positions
    gyro_offset_radians := pose.theta_radians - gyro_angle_radians
    pose := pose }

/-- Latest world-to-odom correction entry whose (Duration, hence
nonnegative) key lies in the range 0..=timestamp, from pose_estimator.rs
line self.world_to_odom.range(Duration::ZERO..=timestamp).last().
The BTreeMap is modelled as its sorted association list. -/
noncomputable def lastCorrectionLeq (world_to_odom : List (ℝ × Transform2d))
    (timestamp : ℝ) : Option (ℝ × Transform2d) :=
  (world_to_odom.filter (fun p => decide (0 ≤ p.1) && decide (p.1 ≤ timestamp))).getLast?

/-- PoseEstimator::sample_at from pose_estimator.rs: odometry pose from the
buffer at the timestamp, composed onto the latest correction at or before
the timestamp; Err(()) is modelled as none. -/
noncomputable def sample_at (odometry_buffer : List (ℝ × Transform2d))
    (world_to_odom : List (ℝ × Transform2d)) (timestamp : ℝ) :
    Option Transform2d :=
  match get_value Transform2d.interpolate odometry_buffer timestamp,
      lastCorrectionLeq world_to_odom timestamp with
  | some odom_at_time, some previous_world_to_odom =>
    some (previous_world_to_odom.2.add odom_at_time)
  | _, _ => none

/-- Plain 2x2 real matrix with entries indexed as in the nalgebra code
(row, column). -/
structure Matrix2 where
  m00 : ℝ
  m01 : ℝ
  m10 : ℝ
  m11 : ℝ

/-- Plain 2x3 real matrix with entries indexed as in the nalgebra code
(row, column). -/
structure Matrix2x3 where
  m00 : ℝ
  m01 : ℝ
  m02 : ℝ
  m10 : ℝ
  m11 : ℝ
  m12 : ℝ

/-- Derivative of a rotation matrix at a given angle, from icp.rs fn d_r. -/
noncomputable def d_r (theta : ℝ) : Matrix2 :=
  ⟨-Real.sin theta, -Real.cos theta, Real.cos theta, -Real.sin theta⟩

/-- Per-point ICP Jacobian, from icp.rs fn jacobian. The rotational column
is d_r(0.0) applied to the point p = (px, py). -/
noncomputable def jacobian (px py : ℝ) : Matrix2x3 :=
  let dr_0 := d_r 0
  ⟨1, 0, dr_0.m00 * px + dr_0.m01 * py,
   0, 1, dr_0.m10 * px + dr_0.m11 * py⟩

/-- PoseGraphEdge from pose_graph.rs. -/
structure PoseGraphEdge where
  i : ℕ
  j : ℕ
  i_to_j : Transform2d

/-- PoseGraphBackend from pose_graph.rs; the DVector of node coordinates
is modelled as a flat list of reals (three entries per node). -/
structure PoseGraphBackend where
  nodes : List ℝ
  edges : List PoseGraphEdge

/-- PoseGraphBackend::add_node_with_odometry from pose_graph.rs. The
source indexes nodes[len-3..len-1], always in bounds since the graph is
created with one zero node; out-of-range list reads are given default 0. -/
noncomputable def add_node_with_odometry (self : PoseGraphBackend)
    (prev_node_to_new : Transform2d) : PoseGraphBackend :=
  let edges := self.edges ++
    [⟨self.nodes.length / 3 - 1, self.nodes.length / 3, prev_node_to_new⟩]
  let world_to_prev : Transform2d :=
    ⟨self.nodes.getD (self.nodes.length - 3) 0,
     self.nodes.getD (self.nodes.length - 2) 0,
     self.nodes.getD (self.nodes.length - 1) 0⟩
  let world_to_new := world_to_prev.add prev_node_to_new
  { nodes := self.nodes ++ [world_to_new.x_meters, world_to_new.y_meters,
      world_to_new.theta_radians],
    edges := edges }

/-- ScanPacket from lidar.rs, without the Instant timestamp field (wall
clock capture time, irrelevant to parsing). -/
structure ScanPacket where
  start_bit : Bool
  start_angle_q6 : ℕ
  ultra_cabins : List ℕ
deriving DecidableEq

/-- XOR of bytes 2..=131 of the buffer, the check_checksum loop of
ScanPacket::from_buffer in lidar.rs. -/
def check_checksum (bytes : Fin 132 → Fin 256) : ℕ :=
  ((List.finRange 132).drop 2).foldl (fun acc i => acc ^^^ (bytes i).val) 0

/-- Little-endian u32 cabin words, the ultra_cabins loop of
ScanPacket::from_buffer in lidar.rs. -/
def ultra_cabins_of (bytes : Fin 132 → Fin 256) : List ℕ :=
  (List.range 32).map (fun i =>
    if h : 4 * i + 7 < 132 then
      (bytes ⟨4 * i + 4, by omega⟩).val +
      256 * (bytes ⟨4 * i + 5, by omega⟩).val +
      65536 * (bytes ⟨4 * i + 6, by omega⟩).val +
      16777216 * (bytes ⟨4 * i + 7, by omega⟩).val
    else 0)

/-- ScanPacket::from_buffer from lidar.rs. Bytes are Fin 256 values; u8
shifts wrap, hence the explicit % 256 on the checksum nibble merge. The
two Err variants are both modelled as none. -/
def ScanPacket.from_buffer (bytes : Fin 132 → Fin 256) : Option ScanPacket :=
  let sync := ((bytes 0).val &&& 0xF0) ||| ((bytes 1).val >>> 4)
  if sync ≠ 0xa5 then none
  else
    let checksum := ((bytes 0).val &&& 0xF) ||| (((bytes 1).val <<< 4) % 256)
    if check_checksum bytes ≠ checksum then none
    else
      let start_bit := ((bytes 3).val &&& 0x80) != 0
      let start_angle_q6 := (bytes 2).val + 256 * ((bytes 3).val &&& 0x7F)
      some ⟨start_bit, start_angle_q6, ultra_cabins_of bytes⟩

/-- Two's-complement reinterpretation of a u32 bit pattern as an i32, for
the cast `scaled as i32` in lidar.rs varbitscale_decode. -/
def toI32 (n : ℕ) : ℤ := if n < 2 ^ 31 then (n : ℤ) else (n : ℤ) - 2 ^ 32

/-- Two's-complement wrap of an integer into the i32 range, the release
semantics of overflowing i32 arithmetic (a debug build would panic). -/
def wrapI32 (z : ℤ) : ℤ := (z + 2 ^ 31) % 2 ^ 32 - 2 ^ 31

/-- varbitscale_decode from lidar.rs, with the 5-row loop over
VBS_SCALED_BASE / VBS_SCALED_LVL / VBS_TARGET_BASE unrolled. The in-out
scale_level parameter is the second argument and second component of the
result (left untouched when every row fails, as in the source). The i32
subtraction `scaled as i32 - base as i32` can overflow (it does for
scaled in [2^31, 2^31 + base - 1]) and is modelled with the release-mode
wrap. The i32 left shift followed by the `as u32` cast keeps the low 32
bits of remain * 2^lvl, and the final u32 addition also wraps. -/
def varbitscale_decode (scaled : ℕ) (scale_level : ℕ) : ℕ × ℕ :=
  let r0 := wrapI32 (toI32 scaled - 3328)
  if 0 ≤ r0 then ((16384 + ((r0 * 16) % 2 ^ 32).toNat) % 2 ^ 32, 4)
  else
    let r1 := wrapI32 (toI32 scaled - 1792)
    if 0 ≤ r1 then ((4096 + ((r1 * 8) % 2 ^ 32).toNat) % 2 ^ 32, 3)
    else
      let r2 := wrapI32 (toI32 scaled - 1280)
      if 0 ≤ r2 then ((2048 + ((r2 * 4) % 2 ^ 32).toNat) % 2 ^ 32, 2)
      else
        let r3 := wrapI32 (toI32 scaled - 512)
        if 0 ≤ r3 then ((512 + ((r3 * 2) % 2 ^ 32).toNat) % 2 ^ 32, 1)
        else
          let r4 := wrapI32 (toI32 scaled - 0)
          if 0 ≤ r4 then ((0 + ((r4 * 1) % 2 ^ 32).toNat) % 2 ^ 32, 0)
          else (0, scale_level)

/-- Claim-side rendering of the spec's varbitscale table, evaluated
top-to-bottom in unbounded integer arithmetic. -/
def varbitscale_spec_table (scaled : ℕ) : ℕ × ℕ :=
  if 3328 ≤ scaled then (2 ^ 14 + (scaled - 3328) * 2 ^ 4, 4)
  else if 1792 ≤ scaled then (2 ^ 12 + (scaled - 1792) * 2 ^ 3, 3)
  else if 1280 ≤ scaled then (2 ^ 11 + (scaled - 1280) * 2 ^ 2, 2)
  else if 512 ≤ scaled then (2 ^ 9 + (scaled - 512) * 2 ^ 1, 1)
  else (scaled, 0)

/-- Claim-side reading of a buffer having data spanning a query time: the
buffer is nonempty and the time lies between its first and last keys. -/
def bufferSpans (buffer : List (ℝ × Transform2d)) (time : ℝ) : Prop :=
  match buffer.head?, buffer.getLast? with
  | some f, some l => f.1 ≤ time ∧ time ≤ l.1
  | _, _ => False

lemma transform_add_neg_eq_zero (a : Transform2d) :
    a.add a.neg = Transform2d.ZERO ∧ a.neg.add a = Transform2d.ZERO := by
  obtain ⟨x, y, θ⟩ := a
  have hpy := Real.sin_sq_add_cos_sq θ
  simp only [Transform2d.add, Transform2d.neg, Transform2d.ZERO, add_zero,
    Real.cos_neg, Real.sin_neg, Transform2d.mk.injEq]
  refine ⟨⟨?_, ?_, by ring⟩, ⟨?_, ?_, by ring⟩⟩
  · linear_combination (-x) * hpy
  · linear_combination (-y) * hpy
  · ring
  · ring

/-- C9: for every Transform2d a, composing a with its inverse in either
order yields the identity transform within tolerance 1e-9 (here the
compositions are even exactly zero). -/
theorem C9_add_neg_is_zero (a : Transform2d) :
    Transform2d.approxEq (a.add a.neg) Transform2d.ZERO ∧
    Transform2d.approxEq (a.neg.add a) Transform2d.ZERO := by
  obtain ⟨h1, h2⟩ := transform_add_neg_eq_zero a
  rw [h1, h2]
  norm_num [Transform2d.approxEq, Transform2d.ZERO]

/-- C9 witness: the property at the concrete transform used by the
repository's own inversion test, (1.0, 0.3, 1.0). -/
theorem C9_add_neg_is_zero_witness :
    Transform2d.approxEq (Transform2d.add ⟨1, 0.3, 1⟩ (Transform2d.neg ⟨1, 0.3, 1⟩))
      Transform2d.ZERO ∧
    Transform2d.approxEq (Transform2d.add (Transform2d.neg ⟨1, 0.3, 1⟩) ⟨1, 0.3, 1⟩)
      Transform2d.ZERO :=
  C9_add_neg_is_zero ⟨1, 0.3, 1⟩

/-- C3: the ICP per-point Jacobian of p = (px, py) is
[[1, 0, -py], [0, 1, px]]; its rotational column is the spec's formula
[(-sin px - cos py), (cos px - sin py)] evaluated at theta = 0, and the
jacobian function does not depend on the current iterate's theta at all. -/
theorem C3_icp_jacobian (px py : ℝ) :
    jacobian px py = ⟨1, 0, -py, 0, 1, px⟩ ∧
    -Real.sin 0 * px - Real.cos 0 * py = -py ∧
    Real.cos 0 * px - Real.sin 0 * py = px := by
  refine ⟨?_, by simp, by simp⟩
  simp only [jacobian, d_r, Real.sin_zero, Real.cos_zero, Transform2d.mk.injEq,
    Matrix2x3.mk.injEq]
  norm_num

/-- C7: if update is called with the same gyro angle as the previous
update (encoded as gyro minus offset equalling the stored previous angle)
and both wheel positions advanced by exactly d, the new pose is the old
pose composed with the body-frame transform (d, 0, 0), exactly. -/
theorem C7_straight_line_update (self : DifferentialDriveOdometry)
    (g d : ℝ) (w : DifferentialDriveWheelPositions)
    (hl : w.left_wheel_meters =
      self.prev_wheel_positions.left_wheel_meters + d)
    (hr : w.right_wheel_meters =
      self.prev_wheel_positions.right_wheel_meters + d)
    (hg : g - self.gyro_offset_radians = self.prev_angle_radians) :
    (self.update g w).pose = self.pose.add ⟨d, 0, 0⟩ := by
  simp only [DifferentialDriveOdometry.update]
  congr 1
  have htw : (⟨(w.left_wheel_meters - self.prev_wheel_positions.left_wheel_meters +
      (w.right_wheel_meters - self.prev_wheel_positions.right_wheel_meters)) / 2, 0,
      g - self.gyro_offset_radians - self.prev_angle_radians⟩ : Twist2d) =
      ⟨d, 0, 0⟩ := by
    rw [hl, hr, hg]
    simp only [Twist2d.mk.injEq]
    norm_num
  rw [htw]
  simp only [transformOfTwist]
  norm_num

/-- C7 witness: the repository's odometry straight-line test scenario,
wheels advancing from 0 to 1 with unchanged gyro reading. -/
theorem C7_straight_line_update_witness :
    (DifferentialDriveOdometry.update ⟨⟨0, 0, 0⟩, 0.2, 0, 0, ⟨0, 0⟩⟩ 0 ⟨1, 1⟩).pose =
      Transform2d.add ⟨0, 0, 0⟩ ⟨1, 0, 0⟩ :=
  C7_straight_line_update ⟨⟨0, 0, 0⟩, 0.2, 0, 0, ⟨0, 0⟩⟩ 0 1 ⟨1, 1⟩
    (by norm_num) (by norm_num) (by norm_num)

/-- C10 counterexample: with gyro angle 0, wheel positions (0,0) and pose
(0,0,1), reset_pose followed by an update with the same gyro angle and
wheel positions moves the pose to (0,0,-1), which differs from (0,0,1)
even up to the 1e-9 tolerance: the update is not a no-op. -/
theorem C10_reset_update_counterexample :
    ¬ Transform2d.approxEq
      (((DifferentialDriveOdometry.reset_pose ⟨⟨0, 0, 0⟩, 0.2, 0, 0, ⟨0, 0⟩⟩
          0 ⟨0, 0⟩ ⟨0, 0, 1⟩).update 0 ⟨0, 0⟩).pose)
      ⟨0, 0, 1⟩ := by
  intro h
  have h3 := h.2.2
  simp only [DifferentialDriveOdometry.reset_pose,
    DifferentialDriveOdometry.update, transformOfTwist, Transform2d.add,
    Transform2d.approxEq] at h3
  norm_num at h3

/-- C10 amended: after reset_pose(g, w, p), an update with the same gyro
angle g and wheel positions w composes the pose with (0, 0, 2*(g - p.θ))
(the gyro offset is stored as p.θ - g but applied by subtraction); the
update is a no-op on the pose exactly in the case g = p.θ exercised by the
repository's reset test. -/
theorem C10_reset_update_amended (self : DifferentialDriveOdometry)
    (g : ℝ) (w : DifferentialDriveWheelPositions) (p : Transform2d) :
    ((self.reset_pose g w p).update g w).pose =
      p.add ⟨0, 0, 2 * (g - p.theta_radians)⟩ ∧
    (g = p.theta_radians → ((self.reset_pose g w p).update g w).pose = p) := by
  have key : ((self.reset_pose g w p).update g w).pose =
      p.add ⟨0, 0, 2 * (g - p.theta_radians)⟩ := by
    simp only [DifferentialDriveOdometry.reset_pose,
      DifferentialDriveOdometry.update, transformOfTwist, Transform2d.add]
    simp only [Transform2d.mk.injEq]
    refine ⟨by ring, by ring, by ring⟩
  refine ⟨key, fun hgp => ?_⟩
  rw [key, hgp]
  obtain ⟨px, py, pθ⟩ := p
  simp only [Transform2d.add, Transform2d.mk.injEq]
  refine ⟨by ring, by ring, by ring⟩

/-- C10 amended witness: with g = p.θ = 1 the reset-then-update pair
leaves the pose (5, 6, 1) unchanged. -/
theorem C10_reset_update_amended_witness :
    ((DifferentialDriveOdometry.reset_pose ⟨⟨0, 0, 0⟩, 0.2, 0, 0, ⟨0, 0⟩⟩
        1 ⟨2, 3⟩ ⟨5, 6, 1⟩).update 1 ⟨2, 3⟩).pose = ⟨5, 6, 1⟩ :=
  (C10_reset_update_amended ⟨⟨0, 0, 0⟩, 0.2, 0, 0, ⟨0, 0⟩⟩ 1 ⟨2, 3⟩ ⟨5, 6, 1⟩).2 rfl

/-- C8: on a pose graph with N+1 nodes (3*(N+1) coordinates),
add_node_with_odometry(T) appends exactly one node whose pose is the pose
of node N composed with T, and exactly one edge (N, N+1, T), leaving all
existing node coordinates and edges unchanged (both lists are extended by
pure appends). -/
theorem C8_add_node_with_odometry (g : PoseGraphBackend) (T : Transform2d)
    (N : ℕ) (h : g.nodes.length = 3 * (N + 1)) :
    (add_node_with_odometry g T).nodes = g.nodes ++
      [(Transform2d.add ⟨g.nodes.getD (3 * N) 0, g.nodes.getD (3 * N + 1) 0,
          g.nodes.getD (3 * N + 2) 0⟩ T).x_meters,
       (Transform2d.add ⟨g.nodes.getD (3 * N) 0, g.nodes.getD (3 * N + 1) 0,
          g.nodes.getD (3 * N + 2) 0⟩ T).y_meters,
       (Transform2d.add ⟨g.nodes.getD (3 * N) 0, g.nodes.getD (3 * N + 1) 0,
          g.nodes.getD (3 * N + 2) 0⟩ T).theta_radians] ∧
    (add_node_with_odometry g T).edges = g.edges ++ [⟨N, N + 1, T⟩] := by
  have e1 : g.nodes.length / 3 - 1 = N := by omega
  have e2 : g.nodes.length / 3 = N + 1 := by omega
  have e3 : g.nodes.length - 3 = 3 * N := by omega
  have e4 : g.nodes.length - 2 = 3 * N + 1 := by omega
  have e5 : g.nodes.length - 1 = 3 * N + 2 := by omega
  simp [add_node_with_odometry, e1, e2, e3, e4, e5]

/-- C8 witness: adding the edge transform (2, 0, 0.2) to the freshly
created single-node graph appends node 1 at (0,0,0) composed with the
transform, and the edge (0, 1, (2, 0, 0.2)). -/
theorem C8_add_node_with_odometry_witness :
    (add_node_with_odometry ⟨[0, 0, 0], []⟩ ⟨2, 0, 0.2⟩).nodes = [0, 0, 0] ++
      [(Transform2d.add ⟨[(0 : ℝ), 0, 0].getD 0 0, [(0 : ℝ), 0, 0].getD 1 0,
          [(0 : ℝ), 0, 0].getD 2 0⟩ ⟨2, 0, 0.2⟩).x_meters,
       (Transform2d.add ⟨[(0 : ℝ), 0, 0].getD 0 0, [(0 : ℝ), 0, 0].getD 1 0,
          [(0 : ℝ), 0, 0].getD 2 0⟩ ⟨2, 0, 0.2⟩).y_meters,
       (Transform2d.add ⟨[(0 : ℝ), 0, 0].getD 0 0, [(0 : ℝ), 0, 0].getD 1 0,
          [(0 : ℝ), 0, 0].getD 2 0⟩ ⟨2, 0, 0.2⟩).theta_radians] ∧
    (add_node_with_odometry ⟨[0, 0, 0], []⟩ ⟨2, 0, 0.2⟩).edges =
      [] ++ [⟨0, 1, ⟨2, 0, 0.2⟩⟩] :=
  C8_add_node_with_odometry ⟨[0, 0, 0], []⟩ ⟨2, 0, 0.2⟩ 0 (by simp)

/-- C5 counterexample: at the u32 input 2^31 = 2147483648 the source's
`scaled as i32` cast gives -2^31, the first row's i32 subtraction
overflows and wraps to the positive remainder 2147480320, so the first
row fires with scale level 4 and (after the shift and u32 wraps) returns
(4294930432, 4), while the spec's table gives
(2^14 + (2^31 - 3328) * 2^4, 4) = (34359701504, 4). -/
theorem C5_varbitscale_counterexample :
    varbitscale_decode 2147483648 0 ≠ varbitscale_spec_table 2147483648 := by
  decide

/-- C5 amended: for every input not exceeding 268437759 (the largest
value whose row-4 output fits in a u32, so no 32-bit operation wraps)
varbitscale_decode returns exactly the pair given by the spec's table
evaluated top-to-bottom, whatever the incoming scale_level; this covers
the claim's five concrete evaluations. -/
theorem C5_varbitscale_decode_matches_table (scaled sl : ℕ)
    (h : scaled ≤ 268437759) :
    varbitscale_decode scaled sl = varbitscale_spec_table scaled := by
  simp only [varbitscale_decode, varbitscale_spec_table, toI32, wrapI32,
    show (2 : ℕ) ^ 31 = 2147483648 from by norm_num,
    show (2 : ℤ) ^ 31 = 2147483648 from by norm_num,
    show (2 : ℤ) ^ 32 = 4294967296 from by norm_num,
    show (2 : ℕ) ^ 32 = 4294967296 from by norm_num,
    show (2 : ℕ) ^ 14 = 16384 from by norm_num,
    show (2 : ℕ) ^ 12 = 4096 from by norm_num,
    show (2 : ℕ) ^ 11 = 2048 from by norm_num,
    show (2 : ℕ) ^ 9 = 512 from by norm_num,
    show (2 : ℕ) ^ 4 = 16 from by norm_num,
    show (2 : ℕ) ^ 3 = 8 from by norm_num,
    show (2 : ℕ) ^ 2 = 4 from by norm_num,
    show (2 : ℕ) ^ 1 = 2 from by norm_num]
  split_ifs <;> simp only [Prod.mk.injEq, and_true, true_and] <;> omega

/-- C5 witness: the five concrete decodes listed by the claim, obtained
from the amended theorem. -/
theorem C5_varbitscale_decode_matches_table_witness :
    varbitscale_decode 1000 0 = (1488, 1) ∧
    varbitscale_decode 2000 0 = (5760, 3) ∧
    varbitscale_decode 1500 0 = (2928, 2) ∧
    varbitscale_decode 15000 0 = (203136, 4) ∧
    varbitscale_decode 0 0 = (0, 0) :=
  ⟨(C5_varbitscale_decode_matches_table 1000 0 (by norm_num)).trans (by decide),
   (C5_varbitscale_decode_matches_table 2000 0 (by norm_num)).trans (by decide),
   (C5_varbitscale_decode_matches_table 1500 0 (by norm_num)).trans (by decide),
   (C5_varbitscale_decode_matches_table 15000 0 (by norm_num)).trans (by decide),
   (C5_varbitscale_decode_matches_table 0 0 (by norm_num)).trans (by decide)⟩

lemma lor_low_high (a x : ℕ) (ha : a < 256) : a ||| (x <<< 8) = a + 256 * x := by
  rw [Nat.shiftLeft_eq, Nat.lor_comm,
    show x * 2 ^ 8 = 2 ^ 8 * x from Nat.mul_comm _ _,
    ← Nat.mul_add_lt_is_or (show a < 2 ^ 8 by omega) x]
  omega

/-- C4: for every 132-byte buffer, ScanPacket::from_buffer succeeds
exactly when the recombined sync byte equals 0xA5 and the recombined
checksum nibbles equal the XOR of bytes 2..=131; on success the packet
carries start_angle_q6 = b2 | ((b3 & 0x7F) << 8) and
start_bit = (b3 & 0x80 != 0). -/
theorem C4_scan_packet_from_buffer (b : Fin 132 → Fin 256) :
    ((ScanPacket.from_buffer b).isSome ↔
      ((((b 0).val &&& 0xF0) ||| ((b 1).val >>> 4)) = 0xA5 ∧
       (((b 0).val &&& 0xF) ||| (((b 1).val <<< 4) % 256)) = check_checksum b)) ∧
    ∀ pkt, ScanPacket.from_buffer b = some pkt →
      pkt.start_angle_q6 = (b 2).val ||| (((b 3).val &&& 0x7F) <<< 8) ∧
      (pkt.start_bit = true ↔ (b 3).val &&& 0x80 ≠ 0) := by
  constructor
  · simp only [ScanPacket.from_buffer]
    split_ifs with h1 h2
    · simp only [Option.isSome_none, Bool.false_eq_true, false_iff]
      intro hc
      exact h1 hc.1
    · simp only [Option.isSome_none, Bool.false_eq_true, false_iff]
      intro hc
      exact h2 hc.2.symm
    · simp only [Option.isSome_some, true_iff]
      push_neg at h1 h2
      exact ⟨h1, h2.symm⟩
  · intro pkt hp
    simp only [ScanPacket.from_buffer] at hp
    split_ifs at hp
    injection hp with hp2
    subst hp2
    refine ⟨?_, by simp [bne_iff_ne]⟩
    rw [lor_low_high _ _ (b 2).isLt]

/-- Concrete 132-byte buffer: byte 0 is 0xA0 and byte 1 is 0x50 (sync
0xA5, checksum nibbles 0), every other byte 0. -/
def bW : Fin 132 → Fin 256 := fun i =>
  if i.val = 0 then 0xA0 else if i.val = 1 then 0x50 else 0

set_option maxRecDepth 8192 in
/-- C4 witness: parsing the concrete buffer bW succeeds and the parsed
fields satisfy the claimed formulas. -/
theorem C4_scan_packet_from_buffer_witness :
    ScanPacket.from_buffer bW = some ⟨false, 0, List.replicate 32 0⟩ ∧
    ((⟨false, 0, List.replicate 32 0⟩ : ScanPacket).start_angle_q6 =
      (bW 2).val ||| (((bW 3).val &&& 0x7F) <<< 8) ∧
     ((⟨false, 0, List.replicate 32 0⟩ : ScanPacket).start_bit = true ↔
      (bW 3).val &&& 0x80 ≠ 0)) := by
  have hb : ScanPacket.from_buffer bW = some ⟨false, 0, List.replicate 32 0⟩ := by
    decide
  exact ⟨hb, (C4_scan_packet_from_buffer bW).2 _ hb⟩

lemma sqrt_one_add_div_sq (x y : ℝ) (hx : x ≠ 0) :
    Real.sqrt (1 + (y / x) ^ 2) = Real.sqrt (x ^ 2 + y ^ 2) / |x| := by
  have h1 : 1 + (y / x) ^ 2 = (x ^ 2 + y ^ 2) / x ^ 2 := by field_simp
  rw [h1, Real.sqrt_div (by positivity), Real.sqrt_sq_eq_abs]

lemma sq_add_sq_pos_of_not_both_zero (x y : ℝ) (h : ¬(x = 0 ∧ y = 0)) :
    0 < x ^ 2 + y ^ 2 := by
  rcases not_and_or.mp h with hx | hy
  · have : 0 < x ^ 2 := by positivity
    nlinarith [sq_nonneg y]
  · have : 0 < y ^ 2 := by positivity
    nlinarith [sq_nonneg x]

lemma cos_atan2 (y x : ℝ) (h : ¬(x = 0 ∧ y = 0)) :
    Real.cos (atan2 y x) = x / Real.sqrt (x ^ 2 + y ^ 2) := by
  have hpos := sq_add_sq_pos_of_not_both_zero x y h
  have hne : Real.sqrt (x ^ 2 + y ^ 2) ≠ 0 := by positivity
  unfold atan2
  split_ifs with ha hb hc hd he
  · rw [Real.cos_arctan, sqrt_one_add_div_sq x y (ne_of_gt ha), abs_of_pos ha,
      one_div_div]
  · rw [Real.cos_add_pi, Real.cos_arctan,
      sqrt_one_add_div_sq x y (ne_of_lt hb), abs_of_neg hb, one_div_div]
    ring
  · rw [Real.cos_sub_pi, Real.cos_arctan,
      sqrt_one_add_div_sq x y (ne_of_lt hb), abs_of_neg hb, one_div_div]
    ring
  · have hx0 : x = 0 := le_antisymm (not_lt.mp ha) (not_lt.mp hb)
    simp [hx0, Real.cos_pi_div_two]
  · have hx0 : x = 0 := le_antisymm (not_lt.mp ha) (not_lt.mp hb)
    simp [hx0, Real.cos_pi_div_two]
  · have hx0 : x = 0 := le_antisymm (not_lt.mp ha) (not_lt.mp hb)
    have hy0 : y = 0 := le_antisymm (not_lt.mp hd) (not_lt.mp he)
    exact absurd ⟨hx0, hy0⟩ h

lemma sin_atan2 (y x : ℝ) (h : ¬(x = 0 ∧ y = 0)) :
    Real.sin (atan2 y x) = y / Real.sqrt (x ^ 2 + y ^ 2) := by
  have hpos := sq_add_sq_pos_of_not_both_zero x y h
  have hne : Real.sqrt (x ^ 2 + y ^ 2) ≠ 0 := by positivity
  unfold atan2
  split_ifs with ha hb hc hd he
  · rw [Real.sin_arctan, sqrt_one_add_div_sq x y (ne_of_gt ha), abs_of_pos ha]
    rw [div_div_div_comm]
    field_simp
  · rw [Real.sin_add_pi, Real.sin_arctan,
      sqrt_one_add_div_sq x y (ne_of_lt hb), abs_of_neg hb]
    have hx : x ≠ 0 := ne_of_lt hb
    field_simp
    ring
  · rw [Real.sin_sub_pi, Real.sin_arctan,
      sqrt_one_add_div_sq x y (ne_of_lt hb), abs_of_neg hb]
    have hx : x ≠ 0 := ne_of_lt hb
    field_simp
    ring
  · have hx0 : x = 0 := le_antisymm (not_lt.mp ha) (not_lt.mp hb)
    rw [Real.sin_pi_div_two, hx0]
    rw [show (0 : ℝ) ^ 2 + y ^ 2 = y ^ 2 by ring, Real.sqrt_sq_eq_abs,
      abs_of_pos hd, div_self (ne_of_gt hd)]
  · have hx0 : x = 0 := le_antisymm (not_lt.mp ha) (not_lt.mp hb)
    rw [Real.sin_neg, Real.sin_pi_div_two, hx0]
    rw [show (0 : ℝ) ^ 2 + y ^ 2 = y ^ 2 by ring, Real.sqrt_sq_eq_abs,
      abs_of_neg he, div_neg, div_self (ne_of_lt he)]
  · have hx0 : x = 0 := le_antisymm (not_lt.mp ha) (not_lt.mp hb)
    have hy0 : y = 0 := le_antisymm (not_lt.mp hd) (not_lt.mp he)
    exact absurd ⟨hx0, hy0⟩ h

lemma planar_A (θ : ℝ) (hθ : θ ≠ 0) (hc : Real.cos θ - 1 ≠ 0) :
    -((θ / 2) * Real.sin θ) / (Real.cos θ - 1) * (Real.sin θ / θ) +
      (θ / 2) * ((1 - Real.cos θ) / θ) = 1 := by
  have hpy := Real.sin_sq_add_cos_sq θ
  field_simp
  linear_combination (-2 * θ ^ 2) * hpy

lemma planar_B (θ : ℝ) (hθ : θ ≠ 0) (hc : Real.cos θ - 1 ≠ 0) :
    (θ / 2) * (Real.sin θ / θ) -
      -((θ / 2) * Real.sin θ) / (Real.cos θ - 1) * ((1 - Real.cos θ) / θ) = 0 := by
  field_simp
  ring

lemma transformOfTwist_exact (dx dy dθ : ℝ) (h : ¬ |dθ| < 1e-9) :
    transformOfTwist ⟨dx, dy, dθ⟩ =
      ⟨dx * (Real.sin dθ / dθ) - dy * ((1 - Real.cos dθ) / dθ),
       dx * ((1 - Real.cos dθ) / dθ) + dy * (Real.sin dθ / dθ), dθ⟩ := by
  simp only [transformOfTwist, if_neg h]

lemma transformOfTwist_zero (dx dy : ℝ) :
    transformOfTwist ⟨dx, dy, 0⟩ = ⟨dx, dy, 0⟩ := by
  simp only [transformOfTwist, Transform2d.mk.injEq]
  norm_num

lemma twistOfTransform_zero (x y : ℝ) :
    twistOfTransform ⟨x, y, 0⟩ = ⟨x, y, 0⟩ := by
  simp only [twistOfTransform, hypot, Transform2d.add, atan2, Twist2d.mk.injEq]
  norm_num [Real.arctan_zero, Real.cos_zero, Real.sin_zero, Real.sqrt_one]

lemma twistOfTransform_exact (x y θ : ℝ) (hθ : θ ≠ 0)
    (hc : ¬ |Real.cos θ - 1| < 1e-9) :
    twistOfTransform ⟨x, y, θ⟩ =
      ⟨-((θ / 2) * Real.sin θ) / (Real.cos θ - 1) * x + (θ / 2) * y,
       -(θ / 2) * x + -((θ / 2) * Real.sin θ) / (Real.cos θ - 1) * y, θ⟩ := by
  simp only [twistOfTransform, hypot, Transform2d.add, if_neg hc]
  set k := -(θ / 2 * Real.sin θ) / (Real.cos θ - 1) with hk
  have hkne : ¬(k = 0 ∧ -(θ / 2) = 0) := by
    rintro ⟨-, habs⟩
    exact hθ (by linarith)
  have hcos := cos_atan2 (-(θ / 2)) k hkne
  have hsin := sin_atan2 (-(θ / 2)) k hkne
  rw [neg_sq] at hcos hsin
  have hEpos : 0 < k ^ 2 + (θ / 2) ^ 2 := by
    have h2 : 0 < (θ / 2) ^ 2 := by positivity
    nlinarith [sq_nonneg k]
  have hEne : Real.sqrt (k ^ 2 + (θ / 2) ^ 2) ≠ 0 := by positivity
  rw [Twist2d.mk.injEq]
  refine ⟨?_, ?_, rfl⟩
  · rw [hcos, hsin]
    field_simp
    ring
  · rw [hcos, hsin]
    field_simp
    ring

lemma log_exp_exact (dx dy dθ : ℝ) (h1 : ¬ |dθ| < 1e-9)
    (h2 : ¬ |Real.cos dθ - 1| < 1e-9) :
    twistOfTransform (transformOfTwist ⟨dx, dy, dθ⟩) = ⟨dx, dy, dθ⟩ := by
  have hθ : dθ ≠ 0 := by
    intro h0
    rw [h0] at h1
    norm_num at h1
  have hcc : Real.cos dθ - 1 ≠ 0 := by
    intro h0
    rw [h0] at h2
    norm_num at h2
  rw [transformOfTwist_exact dx dy dθ h1, twistOfTransform_exact _ _ dθ hθ h2]
  have hA := planar_A dθ hθ hcc
  have hB := planar_B dθ hθ hcc
  rw [Twist2d.mk.injEq]
  refine ⟨?_, ?_, rfl⟩
  · linear_combination dx * hA + dy * hB
  · linear_combination (-dx) * hB + dy * hA

lemma exp_log_exact (x y θ : ℝ) (h1 : ¬ |θ| < 1e-9)
    (h2 : ¬ |Real.cos θ - 1| < 1e-9) :
    transformOfTwist (twistOfTransform ⟨x, y, θ⟩) = ⟨x, y, θ⟩ := by
  have hθ : θ ≠ 0 := by
    intro h0
    rw [h0] at h1
    norm_num at h1
  have hcc : Real.cos θ - 1 ≠ 0 := by
    intro h0
    rw [h0] at h2
    norm_num at h2
  rw [twistOfTransform_exact x y θ hθ h2, transformOfTwist_exact _ _ θ h1]
  have hA := planar_A θ hθ hcc
  have hB := planar_B θ hθ hcc
  rw [Transform2d.mk.injEq]
  refine ⟨?_, ?_, rfl⟩
  · linear_combination x * hA + y * hB
  · linear_combination (-x) * hB + y * hA

/-- C1 counterexample: the twist (1, 0, 2π) satisfies |dθ| < 10, but the
exponential map sends it to the transform (0, 0, 2π) (the rotation factor
sin(2π)/2π and translation factor (1−cos 2π)/2π both vanish), whose log is
(0, 0, 2π): the round trip loses the whole translation, off by 1 in dx,
far beyond the 1e-9 tolerance. -/
theorem C1_roundtrip_counterexample :
    ¬ Twist2d.approxEq (twistOfTransform (transformOfTwist ⟨1, 0, 2 * π⟩))
      ⟨1, 0, 2 * π⟩ := by
  have h2pi : ¬ |(2 * π : ℝ)| < 1e-9 := by
    rw [abs_of_pos (by positivity)]
    intro habs
    nlinarith [Real.pi_gt_three]
  have hexp : transformOfTwist ⟨1, 0, 2 * π⟩ = ⟨0, 0, 2 * π⟩ := by
    rw [transformOfTwist_exact 1 0 (2 * π) h2pi]
    rw [Transform2d.mk.injEq]
    norm_num [Real.sin_two_pi, Real.cos_two_pi]
  have hlog : twistOfTransform ⟨0, 0, 2 * π⟩ =
      ⟨0, 0, 2 * π⟩ := by
    simp only [twistOfTransform, hypot, Transform2d.add, Twist2d.mk.injEq]
    norm_num
  rw [hexp, hlog]
  intro h
  have h1 := h.1
  norm_num at h1

/-- C1 amended: the exp/log round trips hold exactly (hence within the
1e-9 tolerance) whenever the angle is exactly 0 or lies in the regime
where both conversions take their generic branch, that is 1e-9 ≤ |θ| and
1e-9 ≤ |cos θ − 1|. Outside that regime the claim fails: near multiples of
2π the maps are not mutually inverse (see the counterexample), and the
Taylor branches incur truncation error amplified by large dx, dy. -/
theorem C1_twist_transform_roundtrip (dx dy dθ x y θ : ℝ)
    (h1 : dθ = 0 ∨ (1e-9 ≤ |dθ| ∧ 1e-9 ≤ |Real.cos dθ - 1|))
    (h2 : θ = 0 ∨ (1e-9 ≤ |θ| ∧ 1e-9 ≤ |Real.cos θ - 1|)) :
    twistOfTransform (transformOfTwist ⟨dx, dy, dθ⟩) = ⟨dx, dy, dθ⟩ ∧
    transformOfTwist (twistOfTransform ⟨x, y, θ⟩) = ⟨x, y, θ⟩ := by
  constructor
  · rcases h1 with h0 | ⟨ha, hb⟩
    · subst h0
      rw [transformOfTwist_zero, twistOfTransform_zero]
    · exact log_exp_exact dx dy dθ (not_lt.mpr ha) (not_lt.mpr hb)
  · rcases h2 with h0 | ⟨ha, hb⟩
    · subst h0
      rw [twistOfTransform_zero, transformOfTwist_zero]
    · exact exp_log_exact x y θ (not_lt.mpr ha) (not_lt.mpr hb)

/-- C1 witness: at angle π (well inside both generic branches) the round
trips through (1, 0, π) are exact. -/
theorem C1_twist_transform_roundtrip_witness :
    (1e-9 ≤ |(π : ℝ)| ∧ 1e-9 ≤ |Real.cos π - 1|) ∧
    twistOfTransform (transformOfTwist ⟨1, 0, π⟩) = ⟨1, 0, π⟩ ∧
    transformOfTwist (twistOfTransform ⟨1, 0, π⟩) = ⟨1, 0, π⟩ := by
  have hcond : 1e-9 ≤ |(π : ℝ)| ∧ 1e-9 ≤ |Real.cos π - 1| := by
    constructor
    · rw [abs_of_pos Real.pi_pos]
      nlinarith [Real.pi_gt_three]
    · rw [Real.cos_pi]
      norm_num
  refine ⟨hcond, ?_⟩
  exact C1_twist_transform_roundtrip 1 0 π 1 0 π (Or.inr hcond) (Or.inr hcond)

lemma get_value_loop_all_le {α : Type} (interp : α → α → ℝ → α) :
    ∀ (rest : List (ℝ × α)) (lower : ℝ × α) (t : ℝ),
    (∀ p ∈ rest, p.1 ≤ t) →
    some (get_value_loop interp lower rest t) = ((lower :: rest).getLast?).map Prod.snd
  | [], lower, t, _ => by simp [get_value_loop]
  | next :: rs, lower, t, hall => by
    rw [get_value_loop]
    rw [if_neg (not_lt.mpr (hall next (by simp)))]
    rw [List.getLast?_cons_cons]
    exact get_value_loop_all_le interp rs next t (fun p hp => hall p (by simp [hp]))

lemma get_value_loop_bracket {α : Type} (interp : α → α → ℝ → α) :
    ∀ (rest : List (ℝ × α)) (lower : ℝ × α) (t : ℝ) (i : ℕ)
    (hi : i + 1 < (lower :: rest).length)
    (hs : (lower :: rest).Pairwise (fun a b => a.1 < b.1))
    (h1 : ((lower :: rest).get ⟨i, Nat.lt_of_succ_lt hi⟩).1 ≤ t)
    (h2 : t < ((lower :: rest).get ⟨i + 1, hi⟩).1),
    get_value_loop interp lower rest t =
      interp ((lower :: rest).get ⟨i, Nat.lt_of_succ_lt hi⟩).2
        ((lower :: rest).get ⟨i + 1, hi⟩).2
        ((t - ((lower :: rest).get ⟨i, Nat.lt_of_succ_lt hi⟩).1) /
         (((lower :: rest).get ⟨i + 1, hi⟩).1 -
          ((lower :: rest).get ⟨i, Nat.lt_of_succ_lt hi⟩).1))
  | [], _, _, i, hi, _, _, _ => by simp at hi
  | next :: rs, lower, t, 0, hi, hs, h1, h2 => by
    rw [get_value_loop, if_pos (by simpa using h2)]
    simp
  | next :: rs, lower, t, i + 1, hi, hs, h1, h2 => by
    have hst : (next :: rs).Pairwise (fun a b => a.1 < b.1) :=
      (List.pairwise_cons.mp hs).2
    have hnext_le : next.1 ≤ ((next :: rs).get ⟨i, by
        simpa using Nat.lt_of_succ_lt hi⟩).1 := by
      rcases Nat.eq_zero_or_pos i with h0 | hpos
      · subst h0
        simp
      · have := List.pairwise_iff_get.mp hst ⟨0, by simp⟩
          ⟨i, by simpa using Nat.lt_of_succ_lt hi⟩ (by simpa using hpos)
        simpa using this.le
    rw [get_value_loop]
    rw [if_neg (not_lt.mpr (le_trans hnext_le (by simpa using h1)))]
    have := get_value_loop_bracket interp rs next t i (by simpa using hi) hst
      (by simpa using h1) (by simpa using h2)
    simpa using this

lemma mem_key_le_getLast {α : Type} :
    ∀ (buf : List (ℝ × α)), buf.Pairwise (fun a b => a.1 < b.1) →
    ∀ (l : ℝ × α), buf.getLast? = some l → ∀ p ∈ buf, p.1 ≤ l.1
  | [], _, l, hl, p, hp => by simp at hp
  | [f], hs, l, hl, p, hp => by
    simp at hl hp
    rw [hp, hl]
  | f :: g :: rs, hs, l, hl, p, hp => by
    rw [List.getLast?_cons_cons] at hl
    rcases List.mem_cons.mp hp with rfl | hp2
    · have hlmem : l ∈ g :: rs := List.mem_of_getLast?_eq_some hl
      exact (List.rel_of_pairwise_cons hs hlmem).le
    · exact mem_key_le_getLast (g :: rs) (List.pairwise_cons.mp hs).2 l hl p hp2

/-- C6: on the empty buffer get_value returns none; on a sorted nonempty
buffer it returns the first value when t is at or before the first key,
the last value when t is at or after the last key, and the linear
interpolation of the bracketing pair otherwise (instantiated at the f64
Interpolate of the source). -/
theorem C6_buffer_get_value (buf : List (ℝ × ℝ)) (t : ℝ)
    (hs : buf.Pairwise (fun a b => a.1 < b.1)) :
    get_value f64_interpolate ([] : List (ℝ × ℝ)) t = none ∧
    (∀ f, buf.head? = some f → t ≤ f.1 →
      get_value f64_interpolate buf t = some f.2) ∧
    (∀ l, buf.getLast? = some l → l.1 ≤ t →
      get_value f64_interpolate buf t = some l.2) ∧
    (∀ i (hi : i + 1 < buf.length),
      (buf.get ⟨i, Nat.lt_of_succ_lt hi⟩).1 ≤ t →
      t < (buf.get ⟨i + 1, hi⟩).1 →
      get_value f64_interpolate buf t = some (f64_interpolate
        (buf.get ⟨i, Nat.lt_of_succ_lt hi⟩).2 (buf.get ⟨i + 1, hi⟩).2
        ((t - (buf.get ⟨i, Nat.lt_of_succ_lt hi⟩).1) /
         ((buf.get ⟨i + 1, hi⟩).1 -
          (buf.get ⟨i, Nat.lt_of_succ_lt hi⟩).1)))) := by
  refine ⟨rfl, ?_, ?_, ?_⟩
  · intro f hf ht
    cases buf with
    | nil => simp at hf
    | cons f0 rest =>
      simp only [List.head?_cons, Option.some.injEq] at hf
      obtain rfl := hf.symm
      by_cases hgt : f.1 > t
      · simp only [get_value]
        rw [if_pos hgt]
      · have hte : t = f.1 := le_antisymm ht (not_lt.mp hgt)
        simp only [get_value]
        rw [if_neg hgt]
        cases rest with
        | nil => simp [get_value_loop]
        | cons next rs =>
          have hfn : f.1 < next.1 := (List.pairwise_cons.mp hs).1 next (by simp)
          rw [get_value_loop, if_pos (by rw [hte]; exact hfn)]
          rw [hte]
          simp [f64_interpolate]
  · intro l hl hlt
    cases buf with
    | nil => simp at hl
    | cons f rest =>
      simp only [get_value]
      have hfle : f.1 ≤ t := le_trans (mem_key_le_getLast _ hs l hl f (by simp)) hlt
      rw [if_neg (not_lt.mpr hfle)]
      have hall : ∀ p ∈ rest, p.1 ≤ t := fun p hp =>
        le_trans (mem_key_le_getLast _ hs l hl p (by simp [hp])) hlt
      have hloop := get_value_loop_all_le f64_interpolate rest f t hall
      rw [hloop, hl]
      rfl
  · intro i hi h1 h2
    cases buf with
    | nil => simp at hi
    | cons f rest =>
      simp only [get_value]
      have hf_le : f.1 ≤ t := by
        rcases Nat.eq_zero_or_pos i with h0 | hpos
        · subst h0
          simpa using h1
        · have hrel := List.pairwise_iff_get.mp hs ⟨0, by omega⟩
            ⟨i, Nat.lt_of_succ_lt hi⟩ (by simpa using hpos)
          exact le_trans (by simpa using hrel.le) h1
      rw [if_neg (not_lt.mpr hf_le)]
      rw [get_value_loop_bracket f64_interpolate rest f t i hi hs h1 h2]

/-- C6 witness: in the repository's interpolation test buffer, sampling
at time 2 between the samples (1, 1) and (3, 5) linearly interpolates to
1 + (5 - 1) * ((2 - 1) / (3 - 1)) = 3. -/
theorem C6_buffer_get_value_witness :
    get_value f64_interpolate [((1 : ℝ), (1 : ℝ)), (3, 5)] 2 =
      some (f64_interpolate 1 5 ((2 - 1) / (3 - 1))) :=
  (C6_buffer_get_value [((1 : ℝ), (1 : ℝ)), (3, 5)] 2
    (by norm_num [List.pairwise_cons])).2.2.2 0 (by norm_num)
    (by norm_num) (by norm_num)

/-- C2 counterexample: a pose estimator whose odometry buffer holds a
single sample at time 1 and whose correction map has an entry at time 0,
queried at time 5: the buffer has no data spanning time 5 (its span is
[1, 1]), yet sample_at succeeds (get_value clamps to the newest sample
instead of failing). -/
theorem C2_sample_at_counterexample :
    (sample_at [((1 : ℝ), Transform2d.ZERO)] [((0 : ℝ), Transform2d.ZERO)]
      5).isSome = true ∧
    ¬ bufferSpans [((1 : ℝ), Transform2d.ZERO)] 5 := by
  constructor
  · simp only [sample_at, get_value, lastCorrectionLeq, List.filter_cons,
      List.filter_nil, Bool.and_eq_true, decide_eq_true_eq]
    norm_num [get_value_loop]
  · intro h
    simp only [bufferSpans, List.head?_cons, List.getLast?_singleton] at h
    norm_num at h

/-- C2 amended: sample_at(t) composes the latest correction whose key lies
in [0, t] with the buffer value at t, where the buffer lookup clamps to
its first/last sample rather than failing outside its span; it returns an
error exactly when the odometry buffer is empty or the correction map has
no key in [0, t]. -/
theorem C2_sample_at_amended (buf m : List (ℝ × Transform2d)) (t : ℝ) :
    (∀ c v, lastCorrectionLeq m t = some c →
      get_value Transform2d.interpolate buf t = some v →
      sample_at buf m t = some (Transform2d.add c.2 v)) ∧
    (buf ≠ [] → (get_value Transform2d.interpolate buf t).isSome = true) ∧
    (sample_at buf m t = none ↔ buf = [] ∨ lastCorrectionLeq m t = none) := by
  have h2 : ∀ (b0 : ℝ × Transform2d) (bs : List (ℝ × Transform2d)),
      (get_value Transform2d.interpolate (b0 :: bs) t).isSome = true := by
    intro b0 bs
    simp only [get_value]
    split_ifs <;> simp
  refine ⟨?_, ?_, ?_⟩
  · intro c v hc hv
    simp only [sample_at, hc, hv]
  · intro hne
    cases buf with
    | nil => exact absurd rfl hne
    | cons b0 bs => exact h2 b0 bs
  · constructor
    · intro hnone
      cases hbv : get_value Transform2d.interpolate buf t with
      | none =>
        left
        cases buf with
        | nil => rfl
        | cons b0 bs =>
          have hsome := h2 b0 bs
          rw [hbv] at hsome
          simp at hsome
      | some v =>
        cases hlc : lastCorrectionLeq m t with
        | none => exact Or.inr rfl
        | some c =>
          simp [sample_at, hbv, hlc] at hnone
    · intro h
      rcases h with rfl | hnone
      · rfl
      · cases hbv : get_value Transform2d.interpolate buf t <;>
          simp [sample_at, hbv, hnone]

/-- C2 amended witness: with one odometry sample and one correction, both
at time 0, sampling at time 0 returns their composition. -/
theorem C2_sample_at_amended_witness :
    sample_at [((0 : ℝ), Transform2d.ZERO)] [((0 : ℝ), Transform2d.ZERO)] 0 =
      some (Transform2d.add Transform2d.ZERO Transform2d.ZERO) :=
  (C2_sample_at_amended [((0 : ℝ), Transform2d.ZERO)]
    [((0 : ℝ), Transform2d.ZERO)] 0).1 ((0 : ℝ), Transform2d.ZERO)
    Transform2d.ZERO
    (by simp only [lastCorrectionLeq, List.filter_cons, List.filter_nil,
      Bool.and_eq_true, decide_eq_true_eq]
        norm_num)
    (by norm_num [get_value, get_value_loop])
